import Mathlib

/-!
Verification of the resumable chunked-transfer subsystem of
`src/data/providers/onedrive_resources/generate_sharing_links.py`:
the chunk partition arithmetic, the chunked upload-session loop, the
upload strategy selector, the `GraphClient.put` body dispatch, and the
idempotent remote folder-path resolution (`ensure_folder_path`).

Machine integers in the source are Python arbitrary-precision integers,
so they are embedded as `Nat` directly.  HTTP responses are embedded as
explicit data supplied by an environment/oracle, and the remote OneDrive
namespace (an external collaborator) is embedded as an explicit state
machine following the wire contract of the spec.
-/

namespace JheemLinks

/-! ## Chunk partition (upload_file, lines 207-228) -/

/-- `CHUNK_SIZE = 3276800` (line 207 of the source). -/
def CHUNK_SIZE : Nat := 3276800

/-- The direct-upload threshold `4 * 1024 * 1024` (line 170 of the source). -/
def DIRECT_LIMIT : Nat := 4 * 1024 * 1024

/-- One chunk of the partition: start/end byte offsets (inclusive) and the
declared content length, exactly the quantities computed at lines 216-218. -/
structure ChunkDescriptor where
  index : Nat
  start_byte : Nat
  end_byte : Nat
  content_length : Nat
deriving Repr, DecidableEq

/-- `total_chunks = (file_size + CHUNK_SIZE - 1) // CHUNK_SIZE` (line 208). -/
def totalChunks (fileSize chunkSize : Nat) : Nat :=
  (fileSize + chunkSize - 1) / chunkSize

/-- The descriptor of chunk number `i` (lines 216-218):
`start_byte = chunk_num * CHUNK_SIZE`,
`end_byte = min(start_byte + CHUNK_SIZE - 1, file_size - 1)`,
`content_length = end_byte - start_byte + 1`. -/
def mkChunk (fileSize chunkSize i : Nat) : ChunkDescriptor :=
  let s := i * chunkSize
  let e := min (s + chunkSize - 1) (fileSize - 1)
  { index := i, start_byte := s, end_byte := e, content_length := e - s + 1 }

/-- The ordered sequence of chunk descriptors produced by
`for chunk_num in range(total_chunks)` (line 214). -/
def chunkPartition (fileSize chunkSize : Nat) : List ChunkDescriptor :=
  (List.range (totalChunks fileSize chunkSize)).map (mkChunk fileSize chunkSize)

/-! ### Arithmetic lemmas about the partition -/

lemma chunkPartition_length (S C : Nat) :
    (chunkPartition S C).length = totalChunks S C := by
  simp [chunkPartition]

lemma chunkPartition_getElem (S C i : Nat) (h : i < (chunkPartition S C).length) :
    (chunkPartition S C)[i] = mkChunk S C i := by
  simp [chunkPartition]

lemma mul_lt_of_lt_totalChunks {S C i : Nat} (hC : 0 < C)
    (h : i < totalChunks S C) : i * C < S := by
  unfold totalChunks at h
  have h1 : (i + 1) * C ≤ S + C - 1 := (Nat.le_div_iff_mul_le hC).mp h
  have h2 : (i + 1) * C = i * C + C := by ring
  omega

lemma le_totalChunks_mul {S C : Nat} (hC : 0 < C) :
    S ≤ totalChunks S C * C := by
  have h := le_smul_ceilDiv (a := C) (b := S) hC
  rw [Nat.ceilDiv_eq_add_pred_div, smul_eq_mul] at h
  unfold totalChunks
  calc S ≤ C * ((S + C - 1) / C) := h
  _ = (S + C - 1) / C * C := Nat.mul_comm _ _

/-- For an in-range chunk, the declared length telescopes:
it equals `min ((i+1)*C) S - min (i*C) S`. -/
lemma content_length_eq {S C i : Nat} (hC : 0 < C)
    (h : i < totalChunks S C) :
    (mkChunk S C i).content_length = min ((i + 1) * C) S - i * C := by
  have hiS : i * C < S := mul_lt_of_lt_totalChunks hC h
  show min (i * C + C - 1) (S - 1) - i * C + 1 = min ((i + 1) * C) S - i * C
  have h1 : (i + 1) * C = i * C + C := by ring
  rcases Nat.le_total (i * C + C) S with hle | hle
  · rw [min_eq_left (by omega), min_eq_left (by omega)]
    omega
  · rw [min_eq_right (by omega), min_eq_right (by omega)]
    omega

lemma telescope_sum (g : Nat → Nat) (hg : ∀ i, g i ≤ g (i + 1)) :
    ∀ n, ((List.range n).map (fun i => g (i + 1) - g i)).sum = g n - g 0 := by
  have hmono : Monotone g := monotone_nat_of_le_succ hg
  intro n
  induction n with
  | zero => simp
  | succ n ih =>
    rw [List.range_succ, List.map_append, List.sum_append, ih]
    have h0n : g 0 ≤ g n := hmono (Nat.zero_le n)
    have hnn : g n ≤ g (n + 1) := hg n
    simp
    omega

lemma chunkPartition_sum (S C : Nat) (hC : 0 < C) :
    ((chunkPartition S C).map ChunkDescriptor.content_length).sum = S := by
  set n := totalChunks S C with hn
  have hmap : (chunkPartition S C).map ChunkDescriptor.content_length
      = (List.range n).map (fun i => min ((i + 1) * C) S - min (i * C) S) := by
    rw [chunkPartition, List.map_map]
    apply List.map_congr_left
    intro i hi
    have hilt : i < n := List.mem_range.mp hi
    have hiS : i * C < S := mul_lt_of_lt_totalChunks hC hilt
    have hcl := content_length_eq hC hilt
    simp only [Function.comp]
    rw [hcl, min_eq_left hiS.le]
  rw [hmap]
  have hg : ∀ i, min (i * C) S ≤ min ((i + 1) * C) S := fun i =>
    min_le_min (Nat.mul_le_mul_right C (Nat.le_succ i)) le_rfl
  have h2 := telescope_sum (fun i => min (i * C) S) hg n
  simp only [Nat.zero_mul, Nat.zero_min, Nat.sub_zero] at h2
  rw [h2]
  have hnS : S ≤ n * C := le_totalChunks_mul hC
  rw [min_eq_right hnS]

lemma totalChunks_pos {S C : Nat} (hS : 0 < S) (hC : 0 < C) :
    0 < totalChunks S C :=
  Nat.div_pos (by omega) hC

lemma chunkPartition_getLast (S C : Nat) (hS : 0 < S) (hC : 0 < C) :
    (chunkPartition S C).getLast? = some (mkChunk S C (totalChunks S C - 1)) := by
  have hpos := totalChunks_pos hS hC
  unfold chunkPartition
  rcases Nat.exists_eq_add_of_lt hpos with ⟨m, hm⟩
  simp only [zero_add] at hm
  rw [hm, List.range_succ, List.map_append]
  simp

lemma last_end_byte (S C : Nat) (hS : 0 < S) (hC : 0 < C) :
    (mkChunk S C (totalChunks S C - 1)).end_byte = S - 1 := by
  have hpos := totalChunks_pos hS hC
  have hnS : S ≤ totalChunks S C * C := le_totalChunks_mul hC
  show min ((totalChunks S C - 1) * C + C - 1) (S - 1) = S - 1
  have h2 : totalChunks S C - 1 + 1 = totalChunks S C := Nat.succ_pred_eq_of_pos hpos
  have h1 : (totalChunks S C - 1) * C + C = totalChunks S C * C := by
    calc (totalChunks S C - 1) * C + C = (totalChunks S C - 1 + 1) * C := by ring
    _ = totalChunks S C * C := by rw [h2]
  rw [min_eq_right (by omega)]

/-- C1: for every payload size `S > 0` and chunk size `C > 0`, the chunk
partition computed by the chunked upload loop has exactly `⌈S/C⌉` chunk
descriptors; chunk `i` has `start = i*C`, `end = min(start + C - 1, S - 1)`,
declared length `end - start + 1`; the declared lengths sum to `S`; and the
last chunk's end offset is `S - 1`. -/
theorem chunk_partition_correct (S C : Nat) (hS : 0 < S) (hC : 0 < C) :
    (chunkPartition S C).length = S ⌈/⌉ C ∧
    (∀ i, ∀ h : i < (chunkPartition S C).length,
      (chunkPartition S C)[i].start_byte = i * C ∧
      (chunkPartition S C)[i].end_byte = min (i * C + C - 1) (S - 1) ∧
      (chunkPartition S C)[i].content_length =
        (chunkPartition S C)[i].end_byte - (chunkPartition S C)[i].start_byte + 1) ∧
    ((chunkPartition S C).map ChunkDescriptor.content_length).sum = S ∧
    (∃ d, (chunkPartition S C).getLast? = some d ∧ d.end_byte = S - 1) := by
  refine ⟨?_, ?_, chunkPartition_sum S C hC, ?_⟩
  · rw [chunkPartition_length, Nat.ceilDiv_eq_add_pred_div]
    rfl
  · intro i h
    rw [chunkPartition_getElem S C i h]
    exact ⟨rfl, rfl, by simp [mkChunk]⟩
  · exact ⟨mkChunk S C (totalChunks S C - 1),
      chunkPartition_getLast S C hS hC, last_end_byte S C hS hC⟩

/-- Witness for C1 at `S = 10`, `C = 3`. -/
theorem chunk_partition_correct_witness :
    (0 < 10 ∧ 0 < 3) ∧
    ((chunkPartition 10 3).length = 10 ⌈/⌉ 3 ∧
    (∀ i, ∀ h : i < (chunkPartition 10 3).length,
      (chunkPartition 10 3)[i].start_byte = i * 3 ∧
      (chunkPartition 10 3)[i].end_byte = min (i * 3 + 3 - 1) (10 - 1) ∧
      (chunkPartition 10 3)[i].content_length =
        (chunkPartition 10 3)[i].end_byte - (chunkPartition 10 3)[i].start_byte + 1) ∧
    ((chunkPartition 10 3).map ChunkDescriptor.content_length).sum = 10 ∧
    (∃ d, (chunkPartition 10 3).getLast? = some d ∧ d.end_byte = 10 - 1)) :=
  ⟨⟨by decide, by decide⟩, chunk_partition_correct 10 3 (by decide) (by decide)⟩

/-! ## Upload strategy selector (upload_file, line 170) -/

inductive Strategy where
  | Direct
  | Chunked
deriving Repr, DecidableEq

/-- `if file_size < 4 * 1024 * 1024:` use simple upload, else chunked
(line 170). -/
def chooseStrategy (fileSize : Nat) : Strategy :=
  if fileSize < DIRECT_LIMIT then Strategy.Direct else Strategy.Chunked

/-! ## Chunked upload session (upload_file, lines 188-254) -/

/-- The object descriptor parsed from a finalizing response body
(`response.json()`). -/
structure FileData where
  id : String
deriving Repr, DecidableEq

/-- A response to one chunk PUT: its HTTP status, and the descriptor its
body parses to (consulted only on a finalizing status). -/
structure ChunkResp where
  status : Nat
  fileData : FileData
deriving Repr, DecidableEq

/-- The environment of one chunked-session upload: the status of the
`createUploadSession` POST (line 194), the `uploadUrl` field of its body
(line 201, `none` when the field is absent), and the response to each chunk
PUT indexed by chunk number (line 234). -/
structure ChunkedEnv where
  sessionStatus : Nat
  uploadUrl : Option String
  chunkResps : Nat → ChunkResp

/-- The transfer loop (lines 214-254): for each descriptor in order, PUT the
chunk and inspect the status: 202 continues, 200/201 finalizes returning the
body's descriptor, anything else aborts with `None`; exhausting the list
returns `None` (line 254).  The second component is the list of chunks
actually sent. -/
def chunkLoop (resps : Nat → ChunkResp) :
    List ChunkDescriptor → Option FileData × List ChunkDescriptor
  | [] => (none, [])
  | c :: rest =>
    let r := resps c.index
    if r.status = 200 ∨ r.status = 201 ∨ r.status = 202 then
      if r.status = 202 then
        let p := chunkLoop resps rest
        (p.1, c :: p.2)
      else (some r.fileData, [c])
    else (none, [c])

/-- The chunked branch of `upload_file` (lines 192-254): reject a session
response whose status is not 200 (line 196), reject an absent or empty
`uploadUrl` (line 202, Python truthiness), then run the transfer loop over
the chunk partition.  Returns the outcome and the chunks sent. -/
def uploadChunked (env : ChunkedEnv) (fileSize : Nat) :
    Option FileData × List ChunkDescriptor :=
  if env.sessionStatus ≠ 200 then (none, [])
  else
    match env.uploadUrl with
    | none => (none, [])
    | some u =>
      if u = "" then (none, [])
      else chunkLoop env.chunkResps (chunkPartition fileSize CHUNK_SIZE)

/-! ### Lemmas about the transfer loop -/

lemma chunkLoop_all_202 (resps : Nat → ChunkResp)
    (h : ∀ i, (resps i).status = 202) :
    ∀ l : List ChunkDescriptor, (chunkLoop resps l).1 = none := by
  intro l
  induction l with
  | nil => rfl
  | cons c rest ih => simp [chunkLoop, h c.index, ih]

/-- The trace of the loop is a prefix of its input, and every chunk that is
not the last one sent received a 202 response. -/
lemma chunkLoop_trace (resps : Nat → ChunkResp) :
    ∀ (l : List ChunkDescriptor) (b : Nat),
      (∀ j, ∀ hj : j < l.length, (l[j]).index = b + j) →
      ∃ m, m ≤ l.length ∧ (chunkLoop resps l).2 = l.take m ∧
        (∀ j, j + 1 < m → (resps (b + j)).status = 202) ∧
        (l ≠ [] → 1 ≤ m) := by
  intro l
  induction l with
  | nil => exact fun b _ => ⟨0, by simp [chunkLoop]⟩
  | cons c rest ih =>
    intro b hidx
    have hc : c.index = b := by
      have := hidx 0 (by simp)
      simpa using this
    have hrest : ∀ j, ∀ hj : j < rest.length, (rest[j]).index = (b + 1) + j := by
      intro j hj
      have := hidx (j + 1) (by simp; omega)
      simpa [Nat.add_assoc, Nat.add_comm 1 j] using this
    by_cases h202 : (resps c.index).status = 202
    · rcases ih (b + 1) hrest with ⟨m', hm'le, hm'tr, hm'202, _⟩
      refine ⟨m' + 1, by simp; omega, ?_, ?_, fun _ => by omega⟩
      · simp [chunkLoop, h202, hm'tr]
      · intro j hj
        cases j with
        | zero => simpa [hc] using h202
        | succ j' =>
          have := hm'202 j' (by omega)
          simpa [Nat.add_assoc, Nat.add_comm 1 j'] using this
    · refine ⟨1, by simp, ?_, by omega, fun _ => le_rfl⟩
      have h2 : List.take 1 (c :: rest) = [c] := by simp
      rw [h2]
      simp only [chunkLoop]
      split <;> rfl

/-! ### Claim theorems for the chunked session -/

/-- C7: the strategy selector picks the direct upload exactly for sizes
strictly below 4 MiB, and the chunked session exactly at or above it. -/
theorem choose_strategy_threshold (S : Nat) :
    (chooseStrategy S = Strategy.Direct ↔ S < 4 * 1024 * 1024) ∧
    (chooseStrategy S = Strategy.Chunked ↔ 4 * 1024 * 1024 ≤ S) := by
  unfold chooseStrategy DIRECT_LIMIT
  by_cases h : S < 4 * 1024 * 1024
  · rw [if_pos h]
    refine ⟨⟨fun _ => h, fun _ => rfl⟩, ⟨fun hc => ?_, fun hc => ?_⟩⟩
    · cases hc
    · exact absurd hc (by omega)
  · rw [if_neg h]
    refine ⟨⟨fun hc => ?_, fun hc => ?_⟩, ⟨fun _ => by omega, fun _ => rfl⟩⟩
    · cases hc
    · exact absurd hc h

/-- C10: a session-creation response with any status other than 200 makes the
chunked upload fail outright: no success value and no chunk sent, whatever
the body's `uploadUrl` says. -/
theorem session_status_strict (env : ChunkedEnv) (S : Nat)
    (h : env.sessionStatus ≠ 200) :
    uploadChunked env S = (none, []) := by
  unfold uploadChunked
  simp [h]

/-- An environment whose session POST answers 201 with a perfectly good
session URL. -/
def env201 : ChunkedEnv :=
  { sessionStatus := 201
    uploadUrl := some "https://session.example/u"
    chunkResps := fun _ => ⟨202, ⟨"x"⟩⟩ }

/-- Witness for C10 at a 201 session response and a 5 MiB payload. -/
theorem session_status_strict_witness :
    env201.sessionStatus ≠ 200 ∧ uploadChunked env201 (5 * 1024 * 1024) = (none, []) :=
  ⟨by decide, session_status_strict env201 (5 * 1024 * 1024) (by decide)⟩

/-- C5: when every chunk response is a non-finalizing 202, the loop exhausts
all descriptors and the chunked upload returns the failure outcome `none`,
never a success. -/
theorem exhaustion_not_success (env : ChunkedEnv) (S : Nat)
    (h202 : ∀ i, (env.chunkResps i).status = 202) :
    (uploadChunked env S).1 = none := by
  unfold uploadChunked
  split_ifs with h
  · rfl
  · cases hu : env.uploadUrl with
    | none => rfl
    | some u =>
      by_cases hu2 : u = ""
      · simp [hu2]
      · show (if u = "" then ((none : Option FileData), ([] : List ChunkDescriptor))
            else chunkLoop env.chunkResps (chunkPartition S CHUNK_SIZE)).1 = none
        rw [if_neg hu2]
        exact chunkLoop_all_202 env.chunkResps h202 _

/-- An environment answering 202 to every chunk. -/
def envAll202 : ChunkedEnv :=
  { sessionStatus := 200
    uploadUrl := some "https://session.example/u"
    chunkResps := fun _ => ⟨202, ⟨"x"⟩⟩ }

/-- Witness for C5 at a 5 MiB payload whose every chunk response is 202. -/
theorem exhaustion_not_success_witness :
    (∀ i, (envAll202.chunkResps i).status = 202) ∧
    (uploadChunked envAll202 (5 * 1024 * 1024)).1 = none :=
  ⟨fun _ => rfl, exhaustion_not_success envAll202 (5 * 1024 * 1024) (fun _ => rfl)⟩

/-- C6: in every run of the transfer loop the chunks sent are a prefix of the
partition, chunk `k` is sent only if every earlier chunk answered 202 (hence
nothing further is sent after a non-202 response), and the sent byte ranges
are contiguous, non-overlapping and start at offset 0. -/
theorem chunk_sequencing (resps : Nat → ChunkResp) (S : Nat) :
    ∃ m, m ≤ (chunkPartition S CHUNK_SIZE).length ∧
      (chunkLoop resps (chunkPartition S CHUNK_SIZE)).2 =
        (chunkPartition S CHUNK_SIZE).take m ∧
      (∀ k, k < m → ∀ j, j < k → (resps j).status = 202) ∧
      (∀ sent, sent = (chunkLoop resps (chunkPartition S CHUNK_SIZE)).2 →
        (∀ h0 : 0 < sent.length, sent[0].start_byte = 0) ∧
        (∀ k, ∀ hk : k + 1 < sent.length,
          sent[k + 1].start_byte = sent[k].end_byte + 1)) := by
  have hidx : ∀ j, ∀ hj : j < (chunkPartition S CHUNK_SIZE).length,
      ((chunkPartition S CHUNK_SIZE)[j]).index = 0 + j := by
    intro j hj
    rw [chunkPartition_getElem S CHUNK_SIZE j hj]
    simp [mkChunk]
  rcases chunkLoop_trace resps (chunkPartition S CHUNK_SIZE) 0 hidx with
    ⟨m, hmle, htr, h202, _⟩
  refine ⟨m, hmle, htr, ?_, ?_⟩
  · intro k hk j hj
    have := h202 j (by omega)
    simpa using this
  · intro sent hsent
    subst hsent
    rw [htr]
    have hlen : ((chunkPartition S CHUNK_SIZE).take m).length = m := by
      simp [List.length_take]
      omega
    constructor
    · intro h0
      have h0' : 0 < (chunkPartition S CHUNK_SIZE).length := by
        rw [hlen] at h0
        omega
      rw [List.getElem_take, chunkPartition_getElem S CHUNK_SIZE 0 h0']
      simp [mkChunk]
    · intro k hk
      have hk1 : k + 1 < (chunkPartition S CHUNK_SIZE).length := by
        rw [hlen] at hk
        omega
      have hk0 : k < (chunkPartition S CHUNK_SIZE).length := by omega
      rw [List.getElem_take, List.getElem_take,
        chunkPartition_getElem S CHUNK_SIZE (k + 1) hk1,
        chunkPartition_getElem S CHUNK_SIZE k hk0]
      show (k + 1) * CHUNK_SIZE =
        min (k * CHUNK_SIZE + CHUNK_SIZE - 1) (S - 1) + 1
      have hCS : 0 < CHUNK_SIZE := by decide
      have hlt : (k + 1) * CHUNK_SIZE < S := by
        apply mul_lt_of_lt_totalChunks hCS
        rw [chunkPartition_length] at hk1
        omega
      have heq : (k + 1) * CHUNK_SIZE = k * CHUNK_SIZE + CHUNK_SIZE := by ring
      rw [min_eq_left (by omega)]
      omega

/-- C2 (counterexample): at a 10,485,760-byte payload the fourth chunk's
declared length is 655,360 bytes, not the 66,600 the claim states. -/
theorem ten_mib_partition_counterexample :
    (chunkPartition 10485760 CHUNK_SIZE).map ChunkDescriptor.content_length ≠
      [3276800, 3276800, 3276800, 66600] := by decide

/-- The environment of the 10 MiB scenario: session opens with 200, the first
three chunk PUTs answer 202, the fourth answers 201 carrying descriptor `d`. -/
def env10MiB (d : FileData) : ChunkedEnv :=
  { sessionStatus := 200
    uploadUrl := some "https://session.example/u"
    chunkResps := fun i => if i < 3 then ⟨202, ⟨"partial"⟩⟩ else ⟨201, d⟩ }

/-- C2 (amended): a 10,485,760-byte payload with chunk size 3,276,800
partitions into 4 chunks of declared lengths 3,276,800 / 3,276,800 /
3,276,800 / 655,360; with chunk responses 202, 202, 202, 201 the upload
succeeds carrying the descriptor of the 4th response, having sent all 4
chunks. -/
theorem ten_mib_upload (d : FileData) :
    (chunkPartition 10485760 CHUNK_SIZE).map ChunkDescriptor.content_length =
      [3276800, 3276800, 3276800, 655360] ∧
    uploadChunked (env10MiB d) 10485760 =
      (some d, chunkPartition 10485760 CHUNK_SIZE) := by
  constructor
  · decide
  · rfl

/-! ## GraphClient.put (lines 84-98) -/

/-- A Python dict of HTTP headers, as an association list with unique keys. -/
abbrev Headers := List (String × String)

/-- Python `d[k] = v` / one step of `d.update(...)`: replace the binding if
the key is present, otherwise append it. -/
def hset : Headers → String → String → Headers
  | [], k, v => [(k, v)]
  | (k', v') :: rest, k, v =>
    if k' = k then (k, v) :: rest else (k', v') :: hset rest k v

/-- Python `del d[k]`. -/
def hdel : Headers → String → Headers
  | [], _ => []
  | (k', v') :: rest, k => if k' = k then rest else (k', v') :: hdel rest k

/-- Python `d[k]` / `k in d` combined: the value at `k`, if any. -/
def hget : Headers → String → Option String
  | [], _ => none
  | (k', v') :: rest, k => if k' = k then some v' else hget rest k

/-- Python `d.update(other)` (line 88). -/
def hupdate (d : Headers) (other : Headers) : Headers :=
  other.foldl (fun acc kv => hset acc kv.1 kv.2) d

/-- The body variant actually handed to `requests.put`: either
`json=data` (no binary body) or `data=content` (binary body). -/
inductive PutBody where
  | jsonBody (data : Option String)
  | bytesBody (content : List Nat)
deriving Repr, DecidableEq

/-- The request that `GraphClient.put` hands to `requests.put`. -/
structure PutRequest where
  url : String
  headers : Headers
  body : PutBody
deriving Repr, DecidableEq

/-- `self.base_url` (line 68). -/
def BASE_URL : String := "https://graph.microsoft.com/v1.0"

/-- `self.headers` of the client (lines 69-72). -/
def graphHeaders (token : String) : Headers :=
  [("Authorization", "Bearer " ++ token), ("Content-Type", "application/json")]

/-- `GraphClient.put` (lines 84-98): copy the client headers, apply the
per-call overrides, then dispatch on the truthiness of `content` (`None`
and the empty byte string are both falsy): a truthy `content` goes out as a
binary body after dropping a Content-Type that is still exactly
`application/json`; otherwise the request goes out through the JSON branch
with `json=data`. -/
def clientPut (token endpoint : String) (data : Option String)
    (content : Option (List Nat)) (headers : Option Headers) : PutRequest :=
  let url := BASE_URL ++ endpoint
  let reqHeaders :=
    match headers with
    | some h => hupdate (graphHeaders token) h
    | none => graphHeaders token
  match content with
  | some c =>
    if c ≠ [] then
      let reqHeaders2 :=
        if hget reqHeaders "Content-Type" = some "application/json" then
          hdel reqHeaders "Content-Type"
        else reqHeaders
      { url := url, headers := reqHeaders2, body := PutBody.bytesBody c }
    else { url := url, headers := reqHeaders, body := PutBody.jsonBody data }
  | none => { url := url, headers := reqHeaders, body := PutBody.jsonBody data }

/-- The PUT issued by the direct branch of `upload_file` (lines 171-178):
`client.put(upload_url, content=file_content,
headers={"Content-Type": "application/octet-stream"})`. -/
def directUploadRequest (token folderId fileName : String)
    (fileContent : List Nat) : PutRequest :=
  clientPut token ("/me/drive/items/" ++ folderId ++ ":/" ++ fileName ++ ":/content")
    none (some fileContent) (some [("Content-Type", "application/octet-stream")])

/-- C9 (counterexample): for a zero-byte payload the direct PUT does take the
JSON-body branch, but it is issued with Content-Type
`application/octet-stream` — the explicit header passed by `upload_file`
survives — not `application/json` as the claim states. -/
theorem zero_byte_put_counterexample :
    (directUploadRequest "tok" "FID" "f.Rdata" []).body = PutBody.jsonBody none ∧
    hget (directUploadRequest "tok" "FID" "f.Rdata" []).headers "Content-Type" ≠
      some "application/json" := by
  refine ⟨rfl, ?_⟩
  intro h
  have h2 : hget (directUploadRequest "tok" "FID" "f.Rdata" []).headers "Content-Type" =
      some "application/octet-stream" := rfl
  rw [h2] at h
  exact absurd (Option.some.inj h) (by decide)

/-- C9 (amended): for a zero-byte payload the direct upload issues its PUT
through the JSON-body branch of the client (the empty byte buffer is falsy,
so no binary body is sent and `json=None` carries no JSON body either), and
the request's Content-Type header is the `application/octet-stream`
explicitly supplied by `upload_file`, which overrides the client's default
`application/json`. -/
theorem zero_byte_put (token folderId fileName : String) :
    (directUploadRequest token folderId fileName []).body = PutBody.jsonBody none ∧
    hget (directUploadRequest token folderId fileName []).headers "Content-Type" =
      some "application/octet-stream" :=
  ⟨rfl, rfl⟩

/-! ## Path resolution (ensure_folder_path, lines 102-155) -/

/-- Response to the existence lookup `GET /me/drive/root:/{path}`
(line 122): 200 with the folder's id, 404, or any other status. -/
inductive GetResp where
  | ok (id : String)
  | notFound
  | other (status : Nat)
deriving Repr, DecidableEq

/-- Response to the folder create
`POST /me/drive/items/{id}/children` (line 139): 201 with the resulting
item's id, or any other status. -/
inductive CreateResp where
  | created (id : String)
  | error (status : Nat)
deriving Repr, DecidableEq

/-- The remote namespace as the client observes it: a stateful oracle
answering the lookup (by full path from root) and create (by parent id and
name) calls. -/
structure RemoteOracle (E : Type) where
  get : E → List String → GetResp × E
  create : E → String → String → CreateResp × E

/-- Python `folder_path.strip("/")` (line 105). -/
def pyStrip (s : String) : String :=
  String.mk (((s.toList.dropWhile (fun c => c = '/')).reverse.dropWhile
    (fun c => c = '/')).reverse)

/-- Helper for `pySplit`: split a character list at every `'/'`,
accumulating the current segment in reverse. -/
def pySplitAux : List Char → List Char → List String
  | [], acc => [String.mk acc.reverse]
  | c :: cs, acc =>
    if c = '/' then String.mk acc.reverse :: pySplitAux cs []
    else pySplitAux cs (c :: acc)

/-- Python `s.split("/")` (line 105): split at every separator, keeping
empty segments (in particular `"".split("/") = [""]`). -/
def pySplit (s : String) : List String := pySplitAux s.toList []

/-- Result of one resolution: the returned id (`none` on the error returns
at lines 148 and 152), the remote state left behind, and how many lookup
and create calls were issued. -/
structure ResolveOutcome (E : Type) where
  result : Option String
  state : E
  lookups : Nat
  creates : Nat
deriving Repr, DecidableEq

/-- The `for part in path_parts` loop (lines 109-152): skip empty parts;
extend `current_path`; look the extended path up; on 200 adopt the id; on
404 create the folder under `current_id` and adopt the created id; on any
other lookup status, or a create status other than 201, return `None`. -/
def ensureLoop {E : Type} (oracle : RemoteOracle E) :
    List String → E → List String → String → Nat → Nat → ResolveOutcome E
  | [], e, _, currentId, lookups, creates =>
    { result := some currentId, state := e, lookups := lookups, creates := creates }
  | part :: rest, e, pathSoFar, currentId, lookups, creates =>
    if part = "" then ensureLoop oracle rest e pathSoFar currentId lookups creates
    else
      match oracle.get e (pathSoFar ++ [part]) with
      | (GetResp.ok fid, e') =>
        ensureLoop oracle rest e' (pathSoFar ++ [part]) fid (lookups + 1) creates
      | (GetResp.notFound, e') =>
        match oracle.create e' currentId part with
        | (CreateResp.created cid, e'') =>
          ensureLoop oracle rest e'' (pathSoFar ++ [part]) cid (lookups + 1) (creates + 1)
        | (CreateResp.error _, e'') =>
          { result := none, state := e'', lookups := lookups + 1, creates := creates + 1 }
      | (GetResp.other _, e') =>
        { result := none, state := e', lookups := lookups + 1, creates := creates }

/-- `ensure_folder_path` (lines 102-155): split the stripped path and walk
it starting from the well-known root. -/
def ensure_folder_path {E : Type} (oracle : RemoteOracle E) (e : E)
    (folder_path : String) : ResolveOutcome E :=
  ensureLoop oracle (pySplit (pyStrip folder_path)) e [] "root" 0 0

/-! ### The honest remote namespace (external collaborator) -/

/-- One folder node of the remote namespace. -/
structure Node where
  id : String
  parent : String
  name : String
deriving Repr, DecidableEq

/-- The remote namespace: its folder nodes and a counter for fresh ids. -/
structure RemoteState where
  nodes : List Node
  counter : Nat
deriving Repr, DecidableEq

/-- The child of `parent` named `name`, if any. -/
def findChild (s : RemoteState) (parent name : String) : Option String :=
  (s.nodes.find? (fun n => n.parent == parent && n.name == name)).map Node.id

/-- Resolve a path by walking `findChild` from `cur`. -/
def resolvePath (s : RemoteState) : String → List String → Option String
  | cur, [] => some cur
  | cur, p :: ps =>
    match findChild s cur p with
    | some cid => resolvePath s cid ps
    | none => none

/-- The id handed out for the next created node. -/
def freshId (s : RemoteState) : String := "node" ++ toString s.counter

/-- Insert a fresh child of `parent` named `name`. -/
def addNode (s : RemoteState) (parent name : String) : RemoteState :=
  { nodes := { id := freshId s, parent := parent, name := name } :: s.nodes
    counter := s.counter + 1 }

/-- Modelled from the spec: the remote hierarchical namespace is an external
collaborator whose code is not in the repository; its behavior follows the
spec's wire contract (§6) and conflict policy (§4.1 step 3, §7):
`GET root:/{path}` answers 200 with the id of the node at `path`, else 404;
`POST items/{id}/children` answers 201 — with the existing child's id when
one with that name already exists (the requested conflict policy prefers
the existing item), otherwise with the id of a freshly created node. -/
def graphServer : RemoteOracle RemoteState :=
  { get := fun s path =>
      match resolvePath s "root" path with
      | some id => (GetResp.ok id, s)
      | none => (GetResp.notFound, s)
    create := fun s parent name =>
      match findChild s parent name with
      | some id => (CreateResp.created id, s)
      | none => (CreateResp.created (freshId s), addNode s parent name) }

/-! ### Lemmas about the honest namespace -/

/-- The non-empty segments of a part list: exactly the ones the loop does
not skip. -/
def nonEmptySegs (parts : List String) : List String :=
  parts.filter (fun p => !(p == ""))

lemma resolvePath_append (s : RemoteState) (p : String) :
    ∀ (pre : List String) (cur : String),
      resolvePath s cur (pre ++ [p]) =
        (resolvePath s cur pre).bind (fun c => findChild s c p) := by
  intro pre
  induction pre with
  | nil =>
    intro cur
    simp only [List.nil_append, resolvePath, Option.bind]
    cases h : findChild s cur p <;> simp [resolvePath, h]
  | cons q qs ih =>
    intro cur
    simp only [List.cons_append, resolvePath]
    cases h : findChild s cur q with
    | none => simp
    | some cid => exact ih cid

lemma findChild_addNode_self (s : RemoteState) (parent name : String) :
    findChild (addNode s parent name) parent name = some (freshId s) := by
  simp [findChild, addNode, List.find?]

lemma findChild_addNode_other (s : RemoteState) (parent name x y : String)
    (h : ¬(x = parent ∧ y = name)) :
    findChild (addNode s parent name) x y = findChild s x y := by
  have hpred : (parent == x && name == y) = false := by
    by_cases h1 : parent = x
    · by_cases h2 : name = y
      · exact absurd ⟨h1.symm, h2.symm⟩ h
      · simp [h2]
    · simp [h1]
  simp [findChild, addNode, List.find?_cons, hpred]

/-- Creating a missing child does not disturb any path that already
resolves. -/
lemma resolvePath_addNode (s : RemoteState) (parent name : String)
    (hmiss : findChild s parent name = none) :
    ∀ (ρ : List String) (cur c : String),
      resolvePath s cur ρ = some c →
      resolvePath (addNode s parent name) cur ρ = some c := by
  intro ρ
  induction ρ with
  | nil => exact fun cur c h => h
  | cons q qs ih =>
    intro cur c h
    simp only [resolvePath] at h ⊢
    cases hf : findChild s cur q with
    | none =>
      rw [hf] at h
      exact Option.noConfusion h
    | some cid =>
      rw [hf] at h
      have hne : ¬(cur = parent ∧ q = name) := by
        rintro ⟨h1, h2⟩
        rw [h1, h2, hmiss] at hf
        exact Option.noConfusion hf
      rw [findChild_addNode_other s parent name cur q hne, hf]
      exact ih cid c h

/-- First resolution against the honest namespace: it always succeeds, its
state extension preserves every path that already resolved, every prefix of
the walked path resolves afterwards, and the walked path resolves to the
returned id. -/
lemma ensureLoop_run1 :
    ∀ (parts : List String) (s : RemoteState) (π : List String) (cur : String)
      (l k : Nat),
      resolvePath s "root" π = some cur →
      ∃ res s' l' k',
        ensureLoop graphServer parts s π cur l k =
          { result := some res, state := s', lookups := l', creates := k' } ∧
        (∀ ρ c, resolvePath s "root" ρ = some c → resolvePath s' "root" ρ = some c) ∧
        (∀ n, (resolvePath s' "root" (π ++ (nonEmptySegs parts).take n)).isSome) ∧
        resolvePath s' "root" (π ++ nonEmptySegs parts) = some res := by
  intro parts
  induction parts with
  | nil =>
    intro s π cur l k hπ
    refine ⟨cur, s, l, k, rfl, fun ρ c h => h, ?_, ?_⟩
    · intro n
      simp [nonEmptySegs, hπ]
    · simpa [nonEmptySegs] using hπ
  | cons p rest ih =>
    intro s π cur l k hπ
    by_cases hp : p = ""
    · subst hp
      have hskip : ensureLoop graphServer ("" :: rest) s π cur l k =
          ensureLoop graphServer rest s π cur l k := by simp [ensureLoop]
      rcases ih s π cur l k hπ with ⟨res, s', l', k', heq, hpres, hprefix, hfin⟩
      exact ⟨res, s', l', k', by rw [hskip]; exact heq, hpres,
        by simpa [nonEmptySegs] using hprefix, by simpa [nonEmptySegs] using hfin⟩
    · have hrw : nonEmptySegs (p :: rest) = p :: nonEmptySegs rest := by
        simp [nonEmptySegs, hp]
      cases hres : resolvePath s "root" (π ++ [p]) with
      | some fid =>
        have hget : graphServer.get s (π ++ [p]) = (GetResp.ok fid, s) := by
          simp [graphServer, hres]
        have hstep : ensureLoop graphServer (p :: rest) s π cur l k =
            ensureLoop graphServer rest s (π ++ [p]) fid (l + 1) k := by
          simp [ensureLoop, hp, hget]
        rcases ih s (π ++ [p]) fid (l + 1) k hres with
          ⟨res, s', l', k', heq, hpres, hprefix, hfin⟩
        refine ⟨res, s', l', k', by rw [hstep]; exact heq, hpres, ?_, ?_⟩
        · intro n
          cases n with
          | zero =>
            simp only [List.take_zero, List.append_nil]
            exact Option.isSome_iff_exists.mpr ⟨cur, hpres π cur hπ⟩
          | succ m =>
            have h2 := hprefix m
            rw [hrw]
            simpa using h2
        · rw [hrw]
          simpa using hfin
      | none =>
        have hget : graphServer.get s (π ++ [p]) = (GetResp.notFound, s) := by
          simp [graphServer, hres]
        have hmiss : findChild s cur p = none := by
          have happ := resolvePath_append s p π "root"
          rw [hπ, hres] at happ
          simpa using happ.symm
        have hcreate : graphServer.create s cur p =
            (CreateResp.created (freshId s), addNode s cur p) := by
          simp [graphServer, hmiss]
        have hstep : ensureLoop graphServer (p :: rest) s π cur l k =
            ensureLoop graphServer rest (addNode s cur p) (π ++ [p]) (freshId s)
              (l + 1) (k + 1) := by
          simp [ensureLoop, hp, hget, hcreate]
        have hπ2 : resolvePath (addNode s cur p) "root" π = some cur :=
          resolvePath_addNode s cur p hmiss π "root" cur hπ
        have hres2 : resolvePath (addNode s cur p) "root" (π ++ [p]) =
            some (freshId s) := by
          rw [resolvePath_append (addNode s cur p) p π "root", hπ2]
          simpa using findChild_addNode_self s cur p
        rcases ih (addNode s cur p) (π ++ [p]) (freshId s) (l + 1) (k + 1) hres2 with
          ⟨res, s', l', k', heq, hpres, hprefix, hfin⟩
        have hpres2 : ∀ ρ c, resolvePath s "root" ρ = some c →
            resolvePath s' "root" ρ = some c :=
          fun ρ c h => hpres ρ c (resolvePath_addNode s cur p hmiss ρ "root" c h)
        refine ⟨res, s', l', k', by rw [hstep]; exact heq, hpres2, ?_, ?_⟩
        · intro n
          cases n with
          | zero =>
            simp only [List.take_zero, List.append_nil]
            exact Option.isSome_iff_exists.mpr ⟨cur, hpres2 π cur hπ⟩
          | succ m =>
            have h2 := hprefix m
            rw [hrw]
            simpa using h2
        · rw [hrw]
          simpa using hfin

/-- Second resolution: when every prefix of the walked path already
resolves, the loop only performs lookups — the state is unchanged and no
create call is issued — and it returns the resolved id of the full path. -/
lemma ensureLoop_run2 :
    ∀ (parts : List String) (s : RemoteState) (π : List String) (cur : String)
      (l k : Nat),
      resolvePath s "root" π = some cur →
      (∀ n, (resolvePath s "root" (π ++ (nonEmptySegs parts).take n)).isSome) →
      ∃ res l',
        ensureLoop graphServer parts s π cur l k =
          { result := some res, state := s, lookups := l', creates := k } ∧
        resolvePath s "root" (π ++ nonEmptySegs parts) = some res := by
  intro parts
  induction parts with
  | nil =>
    intro s π cur l k hπ hpre
    exact ⟨cur, l, rfl, by simpa [nonEmptySegs] using hπ⟩
  | cons p rest ih =>
    intro s π cur l k hπ hpre
    by_cases hp : p = ""
    · subst hp
      have hskip : ensureLoop graphServer ("" :: rest) s π cur l k =
          ensureLoop graphServer rest s π cur l k := by simp [ensureLoop]
      rcases ih s π cur l k hπ (by simpa [nonEmptySegs] using hpre) with
        ⟨res, l', heq, hfin⟩
      exact ⟨res, l', by rw [hskip]; exact heq, by simpa [nonEmptySegs] using hfin⟩
    · have hrw : nonEmptySegs (p :: rest) = p :: nonEmptySegs rest := by
        simp [nonEmptySegs, hp]
      have h1 := hpre 1
      rw [hrw] at h1
      have h1s : (resolvePath s "root" (π ++ [p])).isSome := by simpa using h1
      rcases Option.isSome_iff_exists.mp h1s with ⟨fid, hfid⟩
      have hget : graphServer.get s (π ++ [p]) = (GetResp.ok fid, s) := by
        simp [graphServer, hfid]
      have hstep : ensureLoop graphServer (p :: rest) s π cur l k =
          ensureLoop graphServer rest s (π ++ [p]) fid (l + 1) k := by
        simp [ensureLoop, hp, hget]
      have hpre2 : ∀ n,
          (resolvePath s "root" ((π ++ [p]) ++ (nonEmptySegs rest).take n)).isSome := by
        intro n
        have h2 := hpre (n + 1)
        rw [hrw] at h2
        simpa using h2
      rcases ih s (π ++ [p]) fid (l + 1) k hfid hpre2 with ⟨res, l', heq, hfin⟩
      refine ⟨res, l', by rw [hstep]; exact heq, ?_⟩
      rw [hrw]
      simpa using hfin

/-! ### Claim theorems for path resolution -/

/-- C3: resolving the same path twice against the honest remote namespace,
with no external mutation in between, returns the same final folder
identifier both times, and the second resolution issues zero folder-create
calls (and leaves the namespace untouched). -/
theorem resolve_idempotent (s0 : RemoteState) (folder_path : String) :
    ∃ id s1 l1 k1 l2,
      ensure_folder_path graphServer s0 folder_path =
        { result := some id, state := s1, lookups := l1, creates := k1 } ∧
      ensure_folder_path graphServer s1 folder_path =
        { result := some id, state := s1, lookups := l2, creates := 0 } := by
  unfold ensure_folder_path
  rcases ensureLoop_run1 (pySplit (pyStrip folder_path)) s0 [] "root" 0 0 rfl with
    ⟨res, s1, l1, k1, heq1, _, hprefix, hfin⟩
  rcases ensureLoop_run2 (pySplit (pyStrip folder_path)) s1 [] "root" 0 0 rfl hprefix with
    ⟨res2, l2, heq2, hfin2⟩
  have hrr : res2 = res := Option.some.inj (hfin2.symm.trans hfin)
  refine ⟨res, s1, l1, k1, l2, heq1, ?_⟩
  rw [heq2, hrr]

/-- C4: when the lookup of a segment reports 404 and the create call
answers 201 with the id of the node that already exists (the conflict
policy's answer for a concurrently created folder), resolution of that
segment succeeds: the loop adopts the existing id and continues, and on a
final segment that id is the result. -/
theorem conflict_adopts_existing {E : Type} (oracle : RemoteOracle E)
    (e e' e'' : E) (p : String) (rest pathSoFar : List String)
    (cur existing : String) (l k : Nat) (hp : p ≠ "")
    (hlook : oracle.get e (pathSoFar ++ [p]) = (GetResp.notFound, e'))
    (hcreate : oracle.create e' cur p = (CreateResp.created existing, e'')) :
    ensureLoop oracle (p :: rest) e pathSoFar cur l k =
      ensureLoop oracle rest e'' (pathSoFar ++ [p]) existing (l + 1) (k + 1) ∧
    (rest = [] →
      (ensureLoop oracle (p :: rest) e pathSoFar cur l k).result = some existing) := by
  have hstep : ensureLoop oracle (p :: rest) e pathSoFar cur l k =
      ensureLoop oracle rest e'' (pathSoFar ++ [p]) existing (l + 1) (k + 1) := by
    simp [ensureLoop, hp, hlook, hcreate]
  refine ⟨hstep, fun hrest => ?_⟩
  subst hrest
  rw [hstep]
  rfl

/-- A namespace in which every lookup misses and every create reports that
the node already exists (it was created concurrently). -/
def oracleConflict : RemoteOracle Unit :=
  { get := fun _ _ => (GetResp.notFound, ())
    create := fun _ _ _ => (CreateResp.created "existing", ()) }

/-- Witness for C4 at the one-segment path `["a"]`. -/
theorem conflict_adopts_existing_witness :
    ensureLoop oracleConflict ["a"] () [] "root" 0 0 =
      ensureLoop oracleConflict [] () ["a"] "existing" 1 1 ∧
    (ensureLoop oracleConflict ["a"] () [] "root" 0 0).result = some "existing" := by
  have h := conflict_adopts_existing oracleConflict () () () "a" [] [] "root" "existing"
    0 0 (by decide) rfl rfl
  exact ⟨h.1, h.2 rfl⟩

/-- A namespace holding a single folder `a` under the root. -/
def stateA : RemoteState :=
  { nodes := [{ id := "idA", parent := "root", name := "a" }], counter := 0 }

/-- C8 (counterexample): resolving the one-segment path `"a"` issues one
existence lookup — not zero, as the claim's second half states. -/
theorem one_segment_lookup_counterexample :
    (ensure_folder_path graphServer stateA "a").result = some "idA" ∧
    (ensure_folder_path graphServer stateA "a").lookups = 1 ∧ (1 : Nat) ≠ 0 := by
  refine ⟨?_, ?_, by decide⟩ <;> rfl

/-- C8 (amended): empty segments are skipped without error and without any
remote call; a path of separators only resolves to the root with no lookup
at all; and a path with exactly one (non-empty) segment issues exactly one
lookup, returning the identifier that lookup reports. -/
theorem empty_segments_single_lookup (E : Type) (oracle : RemoteOracle E) :
    (∀ rest e pathSoFar cur l k,
      ensureLoop oracle ("" :: rest) e pathSoFar cur l k =
        ensureLoop oracle rest e pathSoFar cur l k) ∧
    (∀ e, ensure_folder_path oracle e "/" =
      { result := some "root", state := e, lookups := 0, creates := 0 }) ∧
    (∀ p i e e', p ≠ "" → oracle.get e [p] = (GetResp.ok i, e') →
      ensureLoop oracle [p] e [] "root" 0 0 =
        { result := some i, state := e', lookups := 1, creates := 0 }) := by
  refine ⟨fun rest e pathSoFar cur l k => by simp [ensureLoop], fun e => rfl, ?_⟩
  intro p i e e' hp hlook
  simp [ensureLoop, hp, hlook]

end JheemLinks
